import Mathlib

/-!
Verification of the lensbender optical ray-tracing kernel.

The definitions below are a shallow embedding, over the real numbers, of the
GLSL fragment shader embedded in src/objects/Sensor.ts (functions sellmeier,
customRefract, intersectSphere, traceRay, traceRays) and of the surface sag
routine calculateSurfaceZAtRadius from the Lens mesh builder.  GLSL floats are
modelled as reals; GLSL division by zero and sqrt of a negative argument are
modelled by Lean's conventions (x / 0 = 0, Real.sqrt x = 0 for x < 0), which
matters only for inputs on which the shader's result is undefined anyway.
-/

noncomputable section

/-- Three-component real vector, modelling a GLSL vec3. -/
structure Vec3 where
  x : ℝ
  y : ℝ
  z : ℝ

instance : Zero Vec3 := ⟨⟨0, 0, 0⟩⟩

instance : Add Vec3 := ⟨fun a b => ⟨a.x + b.x, a.y + b.y, a.z + b.z⟩⟩

instance : Sub Vec3 := ⟨fun a b => ⟨a.x - b.x, a.y - b.y, a.z - b.z⟩⟩

instance : Neg Vec3 := ⟨fun a => ⟨-a.x, -a.y, -a.z⟩⟩

instance : SMul ℝ Vec3 := ⟨fun s a => ⟨s * a.x, s * a.y, s * a.z⟩⟩

@[simp] theorem Vec3.zero_x : (0 : Vec3).x = 0 := rfl
@[simp] theorem Vec3.zero_y : (0 : Vec3).y = 0 := rfl
@[simp] theorem Vec3.zero_z : (0 : Vec3).z = 0 := rfl
@[simp] theorem Vec3.add_x (a b : Vec3) : (a + b).x = a.x + b.x := rfl
@[simp] theorem Vec3.add_y (a b : Vec3) : (a + b).y = a.y + b.y := rfl
@[simp] theorem Vec3.add_z (a b : Vec3) : (a + b).z = a.z + b.z := rfl
@[simp] theorem Vec3.sub_x (a b : Vec3) : (a - b).x = a.x - b.x := rfl
@[simp] theorem Vec3.sub_y (a b : Vec3) : (a - b).y = a.y - b.y := rfl
@[simp] theorem Vec3.sub_z (a b : Vec3) : (a - b).z = a.z - b.z := rfl
@[simp] theorem Vec3.neg_x (a : Vec3) : (-a).x = -a.x := rfl
@[simp] theorem Vec3.neg_y (a : Vec3) : (-a).y = -a.y := rfl
@[simp] theorem Vec3.neg_z (a : Vec3) : (-a).z = -a.z := rfl
@[simp] theorem Vec3.smul_x (s : ℝ) (a : Vec3) : (s • a).x = s * a.x := rfl
@[simp] theorem Vec3.smul_y (s : ℝ) (a : Vec3) : (s • a).y = s * a.y := rfl
@[simp] theorem Vec3.smul_z (s : ℝ) (a : Vec3) : (s • a).z = s * a.z := rfl

@[ext] theorem Vec3.ext_components {a b : Vec3} (hx : a.x = b.x)
    (hy : a.y = b.y) (hz : a.z = b.z) : a = b := by
  obtain ⟨ax, ay, az⟩ := a
  obtain ⟨bx, by', bz⟩ := b
  simp only at hx hy hz
  rw [hx, hy, hz]

/-- GLSL dot product of two vec3 values. -/
def Vec3.dot (a b : Vec3) : ℝ := a.x * b.x + a.y * b.y + a.z * b.z

theorem Vec3.dot_self_nonneg (v : Vec3) : 0 ≤ Vec3.dot v v := by
  unfold Vec3.dot; nlinarith [sq_nonneg v.x, sq_nonneg v.y, sq_nonneg v.z]

theorem Vec3.dot_self_eq_zero_iff (v : Vec3) : Vec3.dot v v = 0 ↔ v = 0 := by
  unfold Vec3.dot
  constructor
  · intro h
    obtain ⟨a, b, c⟩ := v
    have hx : a = 0 := by nlinarith [sq_nonneg a, sq_nonneg b, sq_nonneg c]
    have hy : b = 0 := by nlinarith [sq_nonneg a, sq_nonneg b, sq_nonneg c]
    have hz : c = 0 := by nlinarith [sq_nonneg a, sq_nonneg b, sq_nonneg c]
    simp [hx, hy, hz]
    rfl
  · intro h; subst h; simp

/-- GLSL normalize: the vector divided by its Euclidean length.  Namespaced
under Vec3 because Mathlib already declares a root-level normalize. -/
def Vec3.normalize (v : Vec3) : Vec3 := (1 / Real.sqrt (Vec3.dot v v)) • v

/-- A ray, mirroring the shader's struct Ray with an origin and a direction. -/
structure Ray where
  origin : Vec3
  dir : Vec3

/-- Sellmeier refractive-index computation, translated from the shader's
sellmeier function: it converts the wavelength from nanometers to the
micrometer-squared convention and unconditionally returns sqrt of
n2 = 1 + sum of three B-over-(l2 minus C) terms.  There is no pole check and
no negativity check in the source. -/
def sellmeier (lambda : ℝ) (B C : Vec3) : ℝ :=
  let l2 := (lambda * lambda) / (1000 * 1000)
  let n2 := 1 + (B.x * l2) / (l2 - C.x) + (B.y * l2) / (l2 - C.y)
    + (B.z * l2) / (l2 - C.z)
  Real.sqrt n2

/-- Checked Sellmeier computation.  This second definition follows the spec's
words (sections 4.2 and 7): it fails (returns none, the InvalidDispersion
outcome) when the squared wavelength equals any of the three C coefficients or
when the computed squared index is negative, and otherwise returns the index.
It exists only to be compared with the source-translated sellmeier above. -/
def sellmeierChecked (lambda : ℝ) (B C : Vec3) : Option ℝ :=
  let l2 := (lambda * lambda) / (1000 * 1000)
  if l2 = C.x ∨ l2 = C.y ∨ l2 = C.z then none
  else
    let n2 := 1 + (B.x * l2) / (l2 - C.x) + (B.y * l2) / (l2 - C.y)
      + (B.z * l2) / (l2 - C.z)
    if n2 < 0 then none else some (Real.sqrt n2)

/-- Vector refraction, translated from the shader's customRefract: on total
internal reflection (k < 0) it returns the zero vector, otherwise the
standard refraction combination of the incident vector and the normal. -/
def customRefract (I N : Vec3) (eta : ℝ) : Vec3 :=
  let dotNI := Vec3.dot N I
  let k := 1 - eta * eta * (1 - dotNI * dotNI)
  if k < 0 then ⟨0, 0, 0⟩
  else (eta • I) - ((eta * dotNI + Real.sqrt k) • N)

/-- Ray-sphere intersection, translated from the shader's intersectSphere:
the standard quadratic, returning the sentinel pair (-1, -1) when the
discriminant is negative and both quadratic roots otherwise. -/
def intersectSphere (ray : Ray) (center : Vec3) (radius : ℝ) : ℝ × ℝ :=
  let oc := ray.origin - center
  let a := Vec3.dot ray.dir ray.dir
  let b := 2 * Vec3.dot oc ray.dir
  let c := Vec3.dot oc oc - radius * radius
  let discriminant := b * b - 4 * a * c
  if discriminant < 0 then (-1, -1)
  else ((-b - Real.sqrt discriminant) / (2 * a),
        (-b + Real.sqrt discriminant) / (2 * a))

/-- Surface sag routine, translated from calculateSurfaceZAtRadius in the
Lens mesh builder: flat surfaces return the center z unchanged; otherwise the
paraxial approximation is used at or beyond the sphere radius and the exact
spherical sag formula below it, signed by the sign of the curvature. -/
def calculateSurfaceZAtRadius (radiusOfCurvature centerZ radius : ℝ) : ℝ :=
  if radiusOfCurvature = 0 then centerZ
  else
    let r2 := radius * radius
    let R := |radiusOfCurvature|
    if radius ≥ R then
      let sag := r2 / (2 * R)
      centerZ + (if radiusOfCurvature > 0 then sag else -sag)
    else
      let discriminant := 1 - r2 / (R * R)
      let sag := r2 / (2 * R * (1 + Real.sqrt discriminant))
      centerZ + (if radiusOfCurvature > 0 then sag else -sag)

/-- Surface sag offset as the spec states it.  This second definition follows
the spec's words in section 4.1 (three branches, paraxial fallback at or
beyond the sphere radius, sign from the sign of the curvature); it exists only
to be compared with the source-translated calculateSurfaceZAtRadius. -/
def sagSpec (curvature radius : ℝ) : ℝ :=
  if curvature = 0 then 0
  else
    let R := |curvature|
    let r2 := radius ^ 2
    let s := if radius ≥ R then r2 / (2 * R)
      else r2 / (2 * R * (1 + Real.sqrt (1 - r2 / R ^ 2)))
    if curvature > 0 then s else -s

/-- The claim C1 states the sag function's three-branch contract with signed
offset.  The source function applied at center z equals the center z plus the
spec's signed sag for every curvature and radius, which subsumes the contract
for all radii at or above zero. -/
theorem claimC1_sag_contract (c z r : ℝ) :
    calculateSurfaceZAtRadius c z r = z + sagSpec c r := by
  unfold calculateSurfaceZAtRadius sagSpec
  by_cases hc : c = 0
  · simp [hc]
  · simp only [hc, if_false]
    have harg : r * r / (|c| * |c|) = r ^ 2 / |c| ^ 2 := by ring
    by_cases hr : r ≥ |c|
    · simp only [hr, if_true]
      by_cases hpos : c > 0 <;> simp [hpos] <;> ring
    · simp only [hr, if_false]
      rw [harg]
      by_cases hpos : c > 0 <;> simp [hpos] <;> ring

theorem Vec3.dot_comm (a b : Vec3) : Vec3.dot a b = Vec3.dot b a := by
  unfold Vec3.dot; ring

theorem Vec3.dot_smul_left (s : ℝ) (a b : Vec3) :
    Vec3.dot (s • a) b = s * Vec3.dot a b := by
  unfold Vec3.dot; simp; ring

theorem Vec3.dot_smul_right (s : ℝ) (a b : Vec3) :
    Vec3.dot a (s • b) = s * Vec3.dot a b := by
  unfold Vec3.dot; simp; ring

theorem Vec3.dot_sub_left (a b c : Vec3) :
    Vec3.dot (a - b) c = Vec3.dot a c - Vec3.dot b c := by
  unfold Vec3.dot; simp; ring

theorem Vec3.dot_sub_right (a b c : Vec3) :
    Vec3.dot a (b - c) = Vec3.dot a b - Vec3.dot a c := by
  unfold Vec3.dot; simp; ring

theorem Vec3.dot_self_pos_of_ne_zero {v : Vec3} (h : v ≠ 0) :
    0 < Vec3.dot v v :=
  lt_of_le_of_ne (Vec3.dot_self_nonneg v)
    (fun h0 => h ((Vec3.dot_self_eq_zero_iff v).mp h0.symm))

/-- In the refracting branch the returned vector is a unit vector whenever
both inputs are unit vectors: the algebraic norm identity of the standard
refraction formula. -/
theorem customRefract_dot_self_of_unit (I N : Vec3) (eta : ℝ)
    (hI : Vec3.dot I I = 1) (hN : Vec3.dot N N = 1)
    (hk : ¬ 1 - eta * eta * (1 - Vec3.dot N I * Vec3.dot N I) < 0) :
    Vec3.dot (customRefract I N eta) (customRefract I N eta) = 1 := by
  unfold customRefract
  rw [if_neg hk]
  have hsq : Real.sqrt (1 - eta * eta * (1 - Vec3.dot N I * Vec3.dot N I)) *
      Real.sqrt (1 - eta * eta * (1 - Vec3.dot N I * Vec3.dot N I)) =
      1 - eta * eta * (1 - Vec3.dot N I * Vec3.dot N I) :=
    Real.mul_self_sqrt (le_of_not_lt hk)
  simp only [Vec3.dot_sub_left, Vec3.dot_sub_right, Vec3.dot_smul_left,
    Vec3.dot_smul_right]
  rw [Vec3.dot_comm I N, hI, hN]
  linear_combination hsq

/-- The claim C9 states that intersectSphere returns the sentinel pair on a
negative discriminant and an ordered pair of quadratic roots otherwise, for
any ray whose direction vector is nonzero. -/
theorem claimC9_intersect_sphere (o d c : Vec3) (r : ℝ) (hd : d ≠ 0) :
    ((2 * Vec3.dot (o - c) d) * (2 * Vec3.dot (o - c) d)
        - 4 * Vec3.dot d d * (Vec3.dot (o - c) (o - c) - r * r) < 0 →
      intersectSphere ⟨o, d⟩ c r = (-1, -1)) ∧
    (0 ≤ (2 * Vec3.dot (o - c) d) * (2 * Vec3.dot (o - c) d)
        - 4 * Vec3.dot d d * (Vec3.dot (o - c) (o - c) - r * r) →
      (intersectSphere ⟨o, d⟩ c r).1 ≤ (intersectSphere ⟨o, d⟩ c r).2) := by
  have ha : 0 < Vec3.dot d d := Vec3.dot_self_pos_of_ne_zero hd
  constructor
  · intro h
    unfold intersectSphere
    rw [if_pos h]
  · intro h
    unfold intersectSphere
    rw [if_neg (not_lt.2 h)]
    have hs := Real.sqrt_nonneg ((2 * Vec3.dot (o - c) d) *
      (2 * Vec3.dot (o - c) d)
      - 4 * Vec3.dot d d * (Vec3.dot (o - c) (o - c) - r * r))
    exact div_le_div_of_nonneg_right (by linarith) (by linarith) |>.trans_eq rfl

/-- Witness for C9 at a concrete ray and sphere with a nonnegative
discriminant. -/
theorem claimC9_witness :
    (intersectSphere ⟨⟨0, 0, 0⟩, ⟨0, 0, 1⟩⟩ ⟨0, 0, 5⟩ 1).1 ≤
      (intersectSphere ⟨⟨0, 0, 0⟩, ⟨0, 0, 1⟩⟩ ⟨0, 0, 5⟩ 1).2 := by
  have hd : (⟨0, 0, 1⟩ : Vec3) ≠ 0 := by
    intro h
    have hz := congrArg Vec3.z h
    simp at hz
  exact (claimC9_intersect_sphere ⟨0, 0, 0⟩ ⟨0, 0, 1⟩ ⟨0, 0, 5⟩ 1 hd).2
    (by norm_num [Vec3.dot])

/-- The claim C4 states that for unit incident and normal vectors the
refraction routine signals no transmission (the zero vector) exactly when
k = 1 - eta^2 (1 - (N.I)^2) is negative, and that at the glass-to-air ratio
eta = 3/2 the boundary sits at a squared sine of incidence of (2/3)^2. -/
theorem claimC4_total_internal_reflection (I N : Vec3) (eta : ℝ)
    (hI : Vec3.dot I I = 1) (hN : Vec3.dot N N = 1) :
    (customRefract I N eta = ⟨0, 0, 0⟩ ↔
      1 - eta * eta * (1 - Vec3.dot N I * Vec3.dot N I) < 0) ∧
    (eta = 3 / 2 →
      (1 - Vec3.dot N I * Vec3.dot N I > 2 / 3 * (2 / 3) →
        customRefract I N eta = ⟨0, 0, 0⟩) ∧
      (1 - Vec3.dot N I * Vec3.dot N I < 2 / 3 * (2 / 3) →
        customRefract I N eta ≠ ⟨0, 0, 0⟩)) := by
  have hmain : customRefract I N eta = ⟨0, 0, 0⟩ ↔
      1 - eta * eta * (1 - Vec3.dot N I * Vec3.dot N I) < 0 := by
    constructor
    · intro h
      by_contra hk
      have h1 := customRefract_dot_self_of_unit I N eta hI hN hk
      rw [h] at h1
      norm_num [Vec3.dot] at h1
    · intro hk
      unfold customRefract
      rw [if_pos hk]
  refine ⟨hmain, fun heta => ⟨fun hs => ?_, fun hs => ?_⟩⟩
  · exact hmain.mpr (by rw [heta]; nlinarith)
  · intro h
    have := hmain.mp h
    rw [heta] at this
    nlinarith

/-- Witness for C4 at a concrete pair of unit vectors and the ratio 3/2,
where the incidence is grazing enough for total internal reflection. -/
theorem claimC4_witness :
    customRefract ⟨0, 0, 1⟩ ⟨1, 0, 0⟩ (3 / 2) = ⟨0, 0, 0⟩ ↔
      1 - (3 / 2 : ℝ) * (3 / 2) *
        (1 - Vec3.dot ⟨1, 0, 0⟩ ⟨0, 0, 1⟩ * Vec3.dot ⟨1, 0, 0⟩ ⟨0, 0, 1⟩) < 0 :=
  (claimC4_total_internal_reflection ⟨0, 0, 1⟩ ⟨1, 0, 0⟩ (3 / 2)
    (by norm_num [Vec3.dot]) (by norm_num [Vec3.dot])).1

/-- Counterexample to the claim C8: at normal incidence with the incident
direction parallel (not anti-parallel) to the normal, the refraction routine
returns the reversed direction, not the incident direction. -/
theorem claimC8_counterexample :
    customRefract ⟨0, 0, 1⟩ ⟨0, 0, 1⟩ 2 = ⟨0, 0, -1⟩ ∧
      (⟨0, 0, -1⟩ : Vec3) ≠ ⟨0, 0, 1⟩ := by
  constructor
  · unfold customRefract
    norm_num [Vec3.dot]
    exact Vec3.ext_components (by norm_num) (by norm_num) (by norm_num)
  · intro h
    have hz := congrArg Vec3.z h
    norm_num at hz

/-- Amendment of C8: for a unit normal, anti-parallel normal incidence is
transmitted with no directional change for every ratio, while parallel
incidence returns the negated direction: the formula assumes the normal
opposes the incident vector. -/
theorem claimC8_normal_incidence (N : Vec3) (eta : ℝ)
    (hN : Vec3.dot N N = 1) :
    customRefract (-N) N eta = -N ∧ customRefract N N eta = -N := by
  obtain ⟨a, b, c⟩ := N
  have hd1 : Vec3.dot ⟨a, b, c⟩ (-⟨a, b, c⟩) = -1 := by
    unfold Vec3.dot at hN ⊢
    simp only [Vec3.neg_x, Vec3.neg_y, Vec3.neg_z]
    simp at hN ⊢
    linarith
  have hd2 : Vec3.dot ⟨a, b, c⟩ ⟨a, b, c⟩ = 1 := hN
  constructor
  · unfold customRefract
    rw [hd1]
    norm_num [Real.sqrt_one]
    exact Vec3.ext_components (by simp; ring) (by simp; ring) (by simp; ring)
  · unfold customRefract
    rw [hd2]
    norm_num [Real.sqrt_one]
    exact Vec3.ext_components (by simp; ring) (by simp; ring) (by simp; ring)

/-- Witness for the amended C8 at a concrete unit normal and ratio two. -/
theorem claimC8_witness :
    customRefract (-(⟨0, 0, 1⟩ : Vec3)) ⟨0, 0, 1⟩ 2 = -(⟨0, 0, 1⟩ : Vec3) :=
  (claimC8_normal_incidence ⟨0, 0, 1⟩ 2 (by norm_num [Vec3.dot])).1

/-- Counterexample to the claim C2: at a pole of the Sellmeier formula (the
squared wavelength equals the first C coefficient) the spec's checked
computation fails with the InvalidDispersion outcome, but the source's
sellmeier has no failure path and still produces a (meaningless) value. -/
theorem claimC2_counterexample :
    sellmeierChecked 1000 ⟨1, 1, 1⟩ ⟨1, 2, 3⟩ = none ∧
      sellmeier 1000 ⟨1, 1, 1⟩ ⟨1, 2, 3⟩ = 0 := by
  constructor
  · unfold sellmeierChecked
    norm_num
  · unfold sellmeier
    rw [Real.sqrt_eq_zero']
    norm_num

/-- Amendment of C2: the source performs no pole or negativity check at all;
sellmeier is a total function, and the checked computation of the spec agrees
with it exactly on those inputs where no pole occurs and the squared index is
nonnegative.  Away from that set the source returns an undefined value instead
of failing. -/
theorem claimC2_sellmeier_unchecked (lambda : ℝ) (B C : Vec3)
    (h1 : lambda * lambda / (1000 * 1000) ≠ C.x)
    (h2 : lambda * lambda / (1000 * 1000) ≠ C.y)
    (h3 : lambda * lambda / (1000 * 1000) ≠ C.z)
    (h4 : 0 ≤ 1
      + B.x * (lambda * lambda / (1000 * 1000)) / (lambda * lambda / (1000 * 1000) - C.x)
      + B.y * (lambda * lambda / (1000 * 1000)) / (lambda * lambda / (1000 * 1000) - C.y)
      + B.z * (lambda * lambda / (1000 * 1000)) / (lambda * lambda / (1000 * 1000) - C.z)) :
    sellmeierChecked lambda B C = some (sellmeier lambda B C) := by
  unfold sellmeierChecked sellmeier
  rw [if_neg (by push_neg; exact ⟨h1, h2, h3⟩), if_neg (not_lt.2 h4)]

/-- Witness for the amended C2 at a concrete wavelength and coefficient set
with no pole and a nonnegative squared index. -/
theorem claimC2_witness :
    sellmeierChecked 1000 ⟨0, 0, 0⟩ ⟨2, 3, 4⟩ =
      some (sellmeier 1000 ⟨0, 0, 0⟩ ⟨2, 3, 4⟩) :=
  claimC2_sellmeier_unchecked 1000 ⟨0, 0, 0⟩ ⟨2, 3, 4⟩
    (by norm_num) (by norm_num) (by norm_num) (by norm_num)

/-- Helper: sqrt of an explicit perfect square. -/
theorem sqrt_of_sq (a b : ℝ) (hb : 0 ≤ b) (h : b * b = a) :
    Real.sqrt a = b := by
  rw [← h]
  exact Real.sqrt_mul_self hb

/-- Closed form of the exact sag branch: below the sphere radius the exact
spherical sag equals half of R minus sqrt of R squared minus r squared. -/
theorem sag_exact_closed (R r : ℝ) (hR : 0 < R) (h0 : 0 ≤ r) (hr : r < R) :
    r * r / (2 * R * (1 + Real.sqrt (1 - r * r / (R * R)))) =
      (R - Real.sqrt (R * R - r * r)) / 2 := by
  have hRR : (0 : ℝ) ≤ R * R - r * r := by nlinarith
  have hq : Real.sqrt (1 - r * r / (R * R)) = Real.sqrt (R * R - r * r) / R := by
    rw [show 1 - r * r / (R * R) = (R * R - r * r) / (R * R) by
      field_simp]
    rw [Real.sqrt_div hRR, Real.sqrt_mul_self hR.le]
  rw [hq]
  set q := Real.sqrt (R * R - r * r) with hqdef
  have hq0 : 0 ≤ q := Real.sqrt_nonneg _
  have hqsq : q * q = R * R - r * r := Real.mul_self_sqrt hRR
  have hden : 2 * R * (1 + q / R) = 2 * (R + q) := by
    field_simp
    ring
  rw [hden]
  rw [div_eq_div_iff (by linarith) (by norm_num)]
  linear_combination (2 : ℝ) * hqsq

/-- Helper: evaluation of the source sag routine strictly inside the sphere
radius, in the closed form above, for either sign of the curvature. -/
theorem surfaceZ_exact_eval (c z r : ℝ) (hc : c ≠ 0) (h0 : 0 ≤ r)
    (hr : r < |c|) :
    calculateSurfaceZAtRadius c z r =
      z + (if c > 0 then (|c| - Real.sqrt (|c| * |c| - r * r)) / 2
           else -((|c| - Real.sqrt (|c| * |c| - r * r)) / 2)) := by
  unfold calculateSurfaceZAtRadius
  rw [if_neg hc, if_neg (not_le.2 hr)]
  show z + (if c > 0
      then r * r / (2 * |c| * (1 + Real.sqrt (1 - r * r / (|c| * |c|))))
      else -(r * r / (2 * |c| * (1 + Real.sqrt (1 - r * r / (|c| * |c|)))))) = _
  rw [sag_exact_closed |c| r (abs_pos.2 hc) h0 hr]

/-- Helper: evaluation of the source sag routine at the sphere radius, where
the paraxial branch yields half the radius. -/
theorem surfaceZ_boundary_eval (c z : ℝ) (hc : c ≠ 0) :
    calculateSurfaceZAtRadius c z |c| =
      z + (if c > 0 then |c| / 2 else -(|c| / 2)) := by
  unfold calculateSurfaceZAtRadius
  rw [if_neg hc, if_pos (le_refl |c|)]
  have habs : |c| ≠ 0 := abs_ne_zero.2 hc
  show z + (if c > 0 then |c| * |c| / (2 * |c|)
      else -(|c| * |c| / (2 * |c|))) = _
  rw [show |c| * |c| / (2 * |c|) = |c| / 2 by
    field_simp
    linear_combination (-2 : ℝ) * abs_mul_abs_self c]

/-- Counterexample to the claim C5: for the negative curvature -1 the source
sag function is strictly decreasing on the radial interval, not increasing
(compare radii 0 and 3/5, both inside the unit sphere radius). -/
theorem claimC5_counterexample :
    calculateSurfaceZAtRadius (-1) 0 (3 / 5) < calculateSurfaceZAtRadius (-1) 0 0 := by
  have h1 := surfaceZ_exact_eval (-1) 0 (3 / 5) (by norm_num) (by norm_num)
    (by norm_num)
  have h2 := surfaceZ_exact_eval (-1) 0 0 (by norm_num) (by norm_num)
    (by norm_num)
  rw [h1, h2]
  rw [sqrt_of_sq (|(-1 : ℝ)| * |(-1 : ℝ)| - 3 / 5 * (3 / 5)) (4 / 5)
    (by norm_num) (by norm_num)]
  rw [sqrt_of_sq (|(-1 : ℝ)| * |(-1 : ℝ)| - 0 * 0) 1 (by norm_num) (by norm_num)]
  norm_num

/-- Amendment of C5: for a fixed nonzero curvature the source sag function is
strictly increasing on the radial interval when the curvature is positive and
strictly decreasing when it is negative (the sag magnitude grows either way),
and it is continuous across the branch boundary at the sphere radius, where
the paraxial branch takes the value half the radius with the curvature's
sign. -/
theorem claimC5_monotone_and_continuous :
    (∀ c z r1 r2, c ≠ 0 → 0 ≤ r1 → r1 < r2 → r2 < |c| →
      ((0 < c →
          calculateSurfaceZAtRadius c z r1 < calculateSurfaceZAtRadius c z r2) ∧
       (c < 0 →
          calculateSurfaceZAtRadius c z r2 < calculateSurfaceZAtRadius c z r1))) ∧
    (∀ c z, c ≠ 0 →
      Filter.Tendsto (fun r => calculateSurfaceZAtRadius c z r)
          (nhdsWithin |c| (Set.Ico 0 |c|))
          (nhds (calculateSurfaceZAtRadius c z |c|)) ∧
        calculateSurfaceZAtRadius c z |c| =
          z + (if c > 0 then |c| / 2 else -(|c| / 2))) := by
  constructor
  · intro c z r1 r2 hc h0 h12 h2R
    have e1 := surfaceZ_exact_eval c z r1 hc h0 (lt_trans h12 h2R)
    have e2 := surfaceZ_exact_eval c z r2 hc (le_trans h0 h12.le) h2R
    have hq : Real.sqrt (|c| * |c| - r2 * r2) < Real.sqrt (|c| * |c| - r1 * r1) :=
      Real.sqrt_lt_sqrt (by nlinarith [abs_pos.2 hc, sq_nonneg (|c| + r2)])
        (by nlinarith)
    constructor
    · intro hpos
      rw [e1, e2, if_pos hpos, if_pos hpos]
      linarith
    · intro hneg
      rw [e1, e2, if_neg (not_lt.2 hneg.le), if_neg (not_lt.2 hneg.le)]
      linarith
  · intro c z hc
    have hval := surfaceZ_boundary_eval c z hc
    refine ⟨?_, hval⟩
    by_cases hpos : c > 0
    · have hg : Continuous fun r : ℝ =>
          z + (|c| - Real.sqrt (|c| * |c| - r * r)) / 2 := by
        apply continuous_const.add
        apply Continuous.div_const
        apply continuous_const.sub
        exact Real.continuous_sqrt.comp
          (continuous_const.sub (continuous_id.mul continuous_id))
      have hgR : z + (|c| - Real.sqrt (|c| * |c| - |c| * |c|)) / 2 =
          calculateSurfaceZAtRadius c z |c| := by
        rw [hval, if_pos hpos, sub_self, Real.sqrt_zero, sub_zero]
      have h1 : Filter.Tendsto
          (fun r : ℝ => z + (|c| - Real.sqrt (|c| * |c| - r * r)) / 2)
          (nhdsWithin |c| (Set.Ico 0 |c|))
          (nhds (calculateSurfaceZAtRadius c z |c|)) := by
        rw [← hgR]
        exact (hg.tendsto |c|).mono_left nhdsWithin_le_nhds
      refine Filter.Tendsto.congr' ?_ h1
      refine Filter.eventuallyEq_of_mem self_mem_nhdsWithin ?_
      intro r hr
      dsimp only
      rw [surfaceZ_exact_eval c z r hc hr.1 hr.2, if_pos hpos]
    · have hg : Continuous fun r : ℝ =>
          z + -((|c| - Real.sqrt (|c| * |c| - r * r)) / 2) := by
        apply continuous_const.add
        apply Continuous.neg
        apply Continuous.div_const
        apply continuous_const.sub
        exact Real.continuous_sqrt.comp
          (continuous_const.sub (continuous_id.mul continuous_id))
      have hgR : z + -((|c| - Real.sqrt (|c| * |c| - |c| * |c|)) / 2) =
          calculateSurfaceZAtRadius c z |c| := by
        rw [hval, if_neg hpos, sub_self, Real.sqrt_zero, sub_zero]
      have h1 : Filter.Tendsto
          (fun r : ℝ => z + -((|c| - Real.sqrt (|c| * |c| - r * r)) / 2))
          (nhdsWithin |c| (Set.Ico 0 |c|))
          (nhds (calculateSurfaceZAtRadius c z |c|)) := by
        rw [← hgR]
        exact (hg.tendsto |c|).mono_left nhdsWithin_le_nhds
      refine Filter.Tendsto.congr' ?_ h1
      refine Filter.eventuallyEq_of_mem self_mem_nhdsWithin ?_
      intro r hr
      dsimp only
      rw [surfaceZ_exact_eval c z r hc hr.1 hr.2, if_neg hpos]

/-- Witness for the amended C5: strict increase for the positive curvature
one between radii 0 and 3/5. -/
theorem claimC5_witness :
    calculateSurfaceZAtRadius 1 0 0 < calculateSurfaceZAtRadius 1 0 (3 / 5) :=
  ((claimC5_monotone_and_continuous.1 1 0 0 (3 / 5) (by norm_num) (by norm_num)
    (by norm_num) (by norm_num)).1) (by norm_num)

/-- Scene object record, mirroring the rows the shader reads from the scene
data texture: row 0 carries position and the type tag (1 sphere, 2 lens),
row 1 carries radius-or-aperture, thickness and the two surface curvature
radii, rows 2 and 3 carry the Sellmeier B and C coefficient triples. -/
inductive SceneObj where
  | sphere (center : Vec3) (radius : ℝ)
  | lens (center : Vec3) (aperture thickness rFront rBack : ℝ) (B C : Vec3)

/-- Default background color of traceRay. -/
def backgroundColor : Vec3 := ⟨0.1, 0.1, 0.15⟩

/-- Color reported for a (direct or post-lens) sphere hit. -/
def hitColor : Vec3 := ⟨1.0, 0.2, 0.2⟩

/-- Centers of the front and back surface spheres of a lens, as computed in
the shader: each vertex sits at half the thickness from the lens center and
the sphere center is that vertex minus the signed curvature radius. -/
def lensCenters (center : Vec3) (thickness rFront rBack : ℝ) : Vec3 × Vec3 :=
  (⟨center.x, center.y, center.z - thickness / 2 - rFront⟩,
   ⟨center.x, center.y, center.z + thickness / 2 - rBack⟩)

/-- State of the nearest-hit scan loop of traceRay: the closest parameter so
far, the hit object index (none mirrors the shader's -1) and whether the hit
is a lens body. -/
structure HitState where
  closestT : ℝ
  hitObjIndex : Option ℕ
  hitIsLens : Bool

/-- One iteration of traceRay's first loop over the indexed objects. -/
def scanStep (ray : Ray) (st : HitState) (io : ℕ × SceneObj) : HitState :=
  match io.2 with
  | SceneObj.sphere c r =>
      let t := intersectSphere ray c r
      if t.1 > 0.001 ∧ t.1 < st.closestT then ⟨t.1, some io.1, false⟩ else st
  | SceneObj.lens c _a th rF rB _B _C =>
      let cF := (lensCenters c th rF rB).1
      let cB := (lensCenters c th rF rB).2
      let tF := intersectSphere ray cF |rF|
      let tB := intersectSphere ray cB |rB|
      let tEnter := max tF.1 tB.1
      let tExitVol := min tF.2 tB.2
      if tEnter < tExitVol ∧ tExitVol > 0.001 then
        let tHit := if tEnter > 0.001 then tEnter else tExitVol
        if tHit < st.closestT then ⟨tHit, some io.1, true⟩ else st
      else st

/-- The nearest-hit selection loop of traceRay, started from the shader's
initial state of closestT = 100000 and no hit. -/
def findClosest (objs : List SceneObj) (ray : Ray) : HitState :=
  objs.enum.foldl (scanStep ray) ⟨100000, none, false⟩

/-- Second intersection pass of traceRay after a successful lens traversal:
the loop skips the traversed object's index, tests only objects whose type
tag is sphere, and reports a hit on the first sphere whose near intersection
parameter is beyond the epsilon.  Stated as the proposition that the loop
sets the hit color. -/
def secondPassHit (ray : Ray) (hitIdx : ℕ) : List (ℕ × SceneObj) → Prop
  | [] => False
  | (k, SceneObj.sphere c r) :: rest =>
      (k ≠ hitIdx ∧ (intersectSphere ray c r).1 > 0.001) ∨
        secondPassHit ray hitIdx rest
  | (_, SceneObj.lens _ _ _ _ _ _ _) :: rest => secondPassHit ray hitIdx rest

open Classical in
/-- Step d of the shader's lens branch: run the second intersection pass
with the final ray, set the hit color on success, and afterwards replace a
color whose red component stayed below one half (the background) by the
direction visualization of the final ray's direction. -/
def finalColorStep (objs : List SceneObj) (hitIdx : ℕ) (finalRay : Ray) :
    Vec3 :=
  let colorAfter := if secondPassHit finalRay hitIdx objs.enum then hitColor
    else backgroundColor
  if colorAfter.x < 0.5 then (0.5 : ℝ) • finalRay.dir + ⟨0.5, 0.5, 0.5⟩
  else colorAfter

open Classical in
/-- Lens branch of traceRay's hit processing, translated line by line from
the shader: aperture test, dispersion, entry-surface selection, entry
refraction with the TIR guard, propagation to the exit surface, exit
refraction with the TIR guard, then the second pass and visualization step
above. -/
def lensShade (objs : List SceneObj) (ray : Ray) (closestT : ℝ) (hitIdx : ℕ)
    (c : Vec3) (a th rF rB : ℝ) (B C : Vec3) : Vec3 :=
  let hitPos := ray.origin + closestT • ray.dir
  if (hitPos.x - c.x) * (hitPos.x - c.x) + (hitPos.y - c.y) * (hitPos.y - c.y)
      < a * a then
    let nGlass := sellmeier 587.56 B C
    let cF := (lensCenters c th rF rB).1
    let cB := (lensCenters c th rF rB).2
    let tF := intersectSphere ray cF |rF|
    let tB := intersectSphere ray cB |rB|
    let centerIn := if tF.1 > tB.1 then cF else cB
    let centerOut := if tF.1 > tB.1 then cB else cF
    let rOut := if tF.1 > tB.1 then rB else rF
    let normalIn := Vec3.normalize (hitPos - centerIn)
    let dirInternal := customRefract ray.dir normalIn (1 / nGlass)
    if Vec3.dot dirInternal dirInternal > 0 then
      let internalRay : Ray := ⟨hitPos, dirInternal⟩
      let tExit := (intersectSphere internalRay centerOut |rOut|).2
      if tExit > 0.001 then
        let exitPos := hitPos + tExit • dirInternal
        let normalOut := Vec3.normalize (exitPos - centerOut)
        let finalDir := customRefract dirInternal normalOut nGlass
        if Vec3.dot finalDir finalDir > 0 then
          finalColorStep objs hitIdx ⟨exitPos + (0.01 : ℝ) • finalDir, finalDir⟩
        else backgroundColor
      else backgroundColor
    else backgroundColor
  else backgroundColor

/-- Hit-processing step of traceRay: no hit keeps the background, a sphere
hit yields the hit color, and a lens hit is processed by the lens branch
after re-fetching the hit object's record by its index. -/
def shadeHit (objs : List SceneObj) (ray : Ray) (st : HitState) : Vec3 :=
  match st.hitObjIndex with
  | none => backgroundColor
  | some i =>
      if st.hitIsLens then
        match objs.get? i with
        | some (SceneObj.lens c a th rF rB B C) =>
            lensShade objs ray st.closestT i c a th rF rB B C
        | _ => backgroundColor
      else hitColor

/-- Per-ray tracer, translated from the shader's traceRay: nearest-hit scan
followed by hit processing. -/
def traceRay (objs : List SceneObj) (origin direction : Vec3) : Vec3 :=
  shadeHit objs ⟨origin, direction⟩ (findClosest objs ⟨origin, direction⟩)

/-- Deterministic cone sample direction of traceRays for loop index i. -/
def coneDir (i : ℕ) : Vec3 :=
  let theta := (i : ℝ) * 0.062831853
  let phi := (i : ℝ) * 0.031415926
  let r := (0.1 : ℝ)
  ⟨r * Real.cos theta * Real.sin phi, r * Real.sin theta * Real.sin phi,
   r * Real.cos phi⟩

/-- Pixel sampler, translated from the shader's traceRays: an empty object
list short-circuits to the background color; otherwise 500 cone-sample
directions around the normalized center direction are traced and the
component-wise sum of the colors is divided by the sample count.  Summation
over ℝ components is order-independent, so the accumulation loop is modelled
by a list sum. -/
def traceRays (objs : List SceneObj) (origin centerDirection : Vec3) : Vec3 :=
  let direction := Vec3.normalize centerDirection
  if objs.length = 0 then backgroundColor
  else
    (1 / (500 : ℝ)) •
      ((List.range 500).map
        (fun i => traceRay objs origin (Vec3.normalize (coneDir i + direction)))).sum

/-- The claim C7 states that on an empty object list the pixel sampler
returns exactly the fixed background color, for every origin and center
direction, without tracing. -/
theorem claimC7_empty_scene (origin centerDirection : Vec3) :
    traceRays [] origin centerDirection = backgroundColor := by
  unfold traceRays
  simp

@[simp] theorem Vec3.dot_zero_left (a : Vec3) : Vec3.dot 0 a = 0 := by
  simp [Vec3.dot]

@[simp] theorem Vec3.dot_zero_right (a : Vec3) : Vec3.dot a 0 = 0 := by
  simp [Vec3.dot]

/-- Normalization yields a unit vector, except on the zero vector where the
division-by-zero convention yields the zero vector again. -/
theorem Vec3.normalize_dot_cases (v : Vec3) :
    Vec3.dot (Vec3.normalize v) (Vec3.normalize v) = 1 ∨ Vec3.normalize v = 0 := by
  by_cases hv : v = 0
  · right
    subst hv
    ext <;> simp [Vec3.normalize]
  · left
    have hq : 0 < Vec3.dot v v := Vec3.dot_self_pos_of_ne_zero hv
    unfold Vec3.normalize
    rw [Vec3.dot_smul_left, Vec3.dot_smul_right]
    rw [show 1 / Real.sqrt (Vec3.dot v v) *
        (1 / Real.sqrt (Vec3.dot v v) * Vec3.dot v v) =
        Vec3.dot v v / (Real.sqrt (Vec3.dot v v) * Real.sqrt (Vec3.dot v v))
      by ring]
    rw [Real.mul_self_sqrt hq.le]
    exact div_self (ne_of_gt hq)

theorem Vec3.normalize_dot_le_one (v : Vec3) :
    Vec3.dot (Vec3.normalize v) (Vec3.normalize v) ≤ 1 := by
  rcases Vec3.normalize_dot_cases v with h | h
  · exact le_of_eq h
  · rw [h]
    simp

/-- In either branch of the refraction routine, the squared length of the
output is at most one, provided the incident vector has squared length at
most one and the normal is either a unit vector or the zero vector (the two
possible results of normalization). -/
theorem customRefract_dot_le_one (I N : Vec3) (eta : ℝ)
    (hI : Vec3.dot I I ≤ 1) (hN : Vec3.dot N N = 1 ∨ N = 0) :
    Vec3.dot (customRefract I N eta) (customRefract I N eta) ≤ 1 := by
  unfold customRefract
  dsimp only
  split_ifs with hk
  · norm_num [Vec3.dot]
  · rcases hN with hN | hN
    · have hsq : Real.sqrt (1 - eta * eta * (1 - Vec3.dot N I * Vec3.dot N I)) *
          Real.sqrt (1 - eta * eta * (1 - Vec3.dot N I * Vec3.dot N I)) =
          1 - eta * eta * (1 - Vec3.dot N I * Vec3.dot N I) :=
        Real.mul_self_sqrt (le_of_not_lt hk)
      have key : Vec3.dot
          (eta • I - (eta * Vec3.dot N I + Real.sqrt
              (1 - eta * eta * (1 - Vec3.dot N I * Vec3.dot N I))) • N)
          (eta • I - (eta * Vec3.dot N I + Real.sqrt
              (1 - eta * eta * (1 - Vec3.dot N I * Vec3.dot N I))) • N) =
          1 - eta * eta * (1 - Vec3.dot I I) := by
        simp only [Vec3.dot_sub_left, Vec3.dot_sub_right, Vec3.dot_smul_left,
          Vec3.dot_smul_right]
        rw [Vec3.dot_comm I N, hN]
        linear_combination hsq
      rw [key]
      linarith [mul_nonneg (mul_self_nonneg eta) (sub_nonneg.2 hI)]
    · subst hN
      have hee : eta * eta ≤ 1 := by
        simp only [Vec3.dot_zero_left] at hk
        nlinarith [not_lt.1 hk]
      simp only [Vec3.dot_zero_left, Vec3.dot_sub_left, Vec3.dot_sub_right,
        Vec3.dot_smul_left, Vec3.dot_smul_right, Vec3.dot_zero_right]
      nlinarith [Vec3.dot_self_nonneg I]

/-- Predicate: all three color components lie in the closed unit interval. -/
def colorInUnit (v : Vec3) : Prop :=
  0 ≤ v.x ∧ v.x ≤ 1 ∧ 0 ≤ v.y ∧ v.y ≤ 1 ∧ 0 ≤ v.z ∧ v.z ≤ 1

theorem backgroundColor_colorInUnit : colorInUnit backgroundColor := by
  unfold colorInUnit backgroundColor
  norm_num

theorem hitColor_colorInUnit : colorInUnit hitColor := by
  unfold colorInUnit hitColor
  norm_num

/-- The direction-visualization color of traceRay lies in the unit cube when
the visualized direction has squared length at most one. -/
theorem vizColor_colorInUnit (d : Vec3) (h : Vec3.dot d d ≤ 1) :
    colorInUnit ((0.5 : ℝ) • d + ⟨0.5, 0.5, 0.5⟩) := by
  unfold Vec3.dot at h
  unfold colorInUnit
  simp only [Vec3.add_x, Vec3.add_y, Vec3.add_z, Vec3.smul_x, Vec3.smul_y,
    Vec3.smul_z]
  refine ⟨?_, ?_, ?_, ?_, ?_, ?_⟩ <;>
    nlinarith [sq_nonneg (d.x + 1), sq_nonneg (d.x - 1), sq_nonneg (d.y + 1),
      sq_nonneg (d.y - 1), sq_nonneg (d.z + 1), sq_nonneg (d.z - 1),
      sq_nonneg d.x, sq_nonneg d.y, sq_nonneg d.z]

/-- Both branches of the second-pass-and-visualization step yield a color in
the unit cube when the final direction has squared length at most one. -/
theorem finalColorStep_colorInUnit (objs : List SceneObj) (hitIdx : ℕ)
    (finalRay : Ray) (hdir : Vec3.dot finalRay.dir finalRay.dir ≤ 1) :
    colorInUnit (finalColorStep objs hitIdx finalRay) := by
  unfold finalColorStep
  dsimp only
  by_cases hs : secondPassHit finalRay hitIdx objs.enum
  · rw [if_pos hs]
    split_ifs
    · exact vizColor_colorInUnit _ hdir
    · exact hitColor_colorInUnit
  · rw [if_neg hs]
    split_ifs
    · exact vizColor_colorInUnit _ hdir
    · exact backgroundColor_colorInUnit

/-- Every branch of the lens-shading step yields a color in the unit cube,
for any incident direction of squared length at most one. -/
theorem lensShade_colorInUnit (objs : List SceneObj) (ray : Ray)
    (closestT : ℝ) (hitIdx : ℕ) (c : Vec3) (a th rF rB : ℝ) (B C : Vec3)
    (hdir : Vec3.dot ray.dir ray.dir ≤ 1) :
    colorInUnit (lensShade objs ray closestT hitIdx c a th rF rB B C) := by
  unfold lensShade
  dsimp only
  split_ifs <;>
    first
      | exact backgroundColor_colorInUnit
      | exact hitColor_colorInUnit
      | exact finalColorStep_colorInUnit _ _ _
          (customRefract_dot_le_one _ _ _
            (customRefract_dot_le_one _ _ _ hdir (Vec3.normalize_dot_cases _))
            (Vec3.normalize_dot_cases _))

/-- Every branch of the hit-processing step yields a color in the unit cube,
for any incident direction of squared length at most one. -/
theorem shadeHit_colorInUnit (objs : List SceneObj) (ray : Ray)
    (st : HitState) (hdir : Vec3.dot ray.dir ray.dir ≤ 1) :
    colorInUnit (shadeHit objs ray st) := by
  unfold shadeHit
  cases hidx : st.hitObjIndex with
  | none => exact backgroundColor_colorInUnit
  | some i =>
      cases hl : st.hitIsLens with
      | false =>
          simp only [hl, Bool.false_eq_true, if_false]
          exact hitColor_colorInUnit
      | true =>
          simp only [hl, if_true]
          cases hget : objs.get? i with
          | none => exact backgroundColor_colorInUnit
          | some o =>
              cases o with
              | sphere c r => exact backgroundColor_colorInUnit
              | lens c a th rF rB B C =>
                  exact lensShade_colorInUnit objs ray st.closestT i c a th
                    rF rB B C hdir

theorem traceRay_colorInUnit (objs : List SceneObj) (origin direction : Vec3)
    (hdir : Vec3.dot direction direction ≤ 1) :
    colorInUnit (traceRay objs origin direction) :=
  shadeHit_colorInUnit objs ⟨origin, direction⟩ _ hdir

theorem list_sum_comp_x (l : List Vec3) : l.sum.x = (l.map Vec3.x).sum := by
  induction l with
  | nil => rfl
  | cons a t ih =>
      show (a + t.sum).x = a.x + (t.map Vec3.x).sum
      rw [Vec3.add_x, ih]

theorem list_sum_comp_y (l : List Vec3) : l.sum.y = (l.map Vec3.y).sum := by
  induction l with
  | nil => rfl
  | cons a t ih =>
      show (a + t.sum).y = a.y + (t.map Vec3.y).sum
      rw [Vec3.add_y, ih]

theorem list_sum_comp_z (l : List Vec3) : l.sum.z = (l.map Vec3.z).sum := by
  induction l with
  | nil => rfl
  | cons a t ih =>
      show (a + t.sum).z = a.z + (t.map Vec3.z).sum
      rw [Vec3.add_z, ih]

/-- Component-wise averaging of a list of unit-cube colors by its (positive)
length stays in the unit cube. -/
theorem avg_color_in_unit (l : List Vec3) (n : ℕ) (hn : 0 < n)
    (hlen : l.length = n) (hmem : ∀ v ∈ l, colorInUnit v) :
    colorInUnit ((1 / (n : ℝ)) • l.sum) := by
  have hnpos : (0 : ℝ) < n := by exact_mod_cast hn
  have bound : ∀ (f : Vec3 → ℝ), (∀ v ∈ l, 0 ≤ f v ∧ f v ≤ 1) →
      0 ≤ (l.map f).sum ∧ (l.map f).sum ≤ (n : ℝ) := by
    intro f hf
    constructor
    · exact List.sum_nonneg fun x hx => by
        obtain ⟨v, hv, rfl⟩ := List.mem_map.1 hx
        exact (hf v hv).1
    · have h1 : (l.map f).sum ≤ (l.map f).length • (1 : ℝ) :=
        List.sum_le_card_nsmul (l.map f) 1 fun x hx => by
          obtain ⟨v, hv, rfl⟩ := List.mem_map.1 hx
          exact (hf v hv).2
      rw [List.length_map, hlen, nsmul_eq_mul, mul_one] at h1
      exact h1
  have hx := bound Vec3.x fun v hv => ⟨(hmem v hv).1, (hmem v hv).2.1⟩
  have hy := bound Vec3.y fun v hv =>
    ⟨(hmem v hv).2.2.1, (hmem v hv).2.2.2.1⟩
  have hz := bound Vec3.z fun v hv =>
    ⟨(hmem v hv).2.2.2.2.1, (hmem v hv).2.2.2.2.2⟩
  unfold colorInUnit
  simp only [Vec3.smul_x, Vec3.smul_y, Vec3.smul_z, list_sum_comp_x,
    list_sum_comp_y, list_sum_comp_z]
  have hrw : ∀ s : ℝ, 1 / (n : ℝ) * s = s / (n : ℝ) := fun s => by ring
  rw [hrw, hrw, hrw]
  refine ⟨div_nonneg hx.1 hnpos.le, (div_le_one hnpos).2 hx.2,
    div_nonneg hy.1 hnpos.le, (div_le_one hnpos).2 hy.2,
    div_nonneg hz.1 hnpos.le, (div_le_one hnpos).2 hz.2⟩

theorem traceRays_colorInUnit (objs : List SceneObj)
    (origin centerDirection : Vec3) :
    colorInUnit (traceRays objs origin centerDirection) := by
  unfold traceRays
  dsimp only
  split_ifs with h
  · exact backgroundColor_colorInUnit
  · have := avg_color_in_unit
      ((List.range 500).map fun i => traceRay objs origin
        (Vec3.normalize (coneDir i + Vec3.normalize centerDirection)))
      500 (by norm_num) (by simp) (by
        intro v hv
        obtain ⟨i, hi, rfl⟩ := List.mem_map.1 hv
        exact traceRay_colorInUnit objs origin _ (Vec3.normalize_dot_le_one _))
    simpa using this

/-- The claim C10 states the unit-cube invariant for colors: for every scene
and every unit ray direction the per-ray tracer returns a color whose three
components lie in the closed unit interval, and the averaging pixel sampler
does so for every center direction unconditionally. -/
theorem claimC10_color_range :
    (∀ objs origin direction, Vec3.dot direction direction = 1 →
      colorInUnit (traceRay objs origin direction)) ∧
    (∀ objs origin centerDirection,
      colorInUnit (traceRays objs origin centerDirection)) :=
  ⟨fun objs origin direction hdir =>
      traceRay_colorInUnit objs origin direction (le_of_eq hdir),
   fun objs origin centerDirection =>
      traceRays_colorInUnit objs origin centerDirection⟩

/-- Witness for C10 at a concrete origin, unit direction and the empty
scene. -/
theorem claimC10_witness :
    colorInUnit (traceRay [] ⟨0, 0, 0⟩ ⟨0, 0, 1⟩) :=
  claimC10_color_range.1 [] ⟨0, 0, 0⟩ ⟨0, 0, 1⟩ (by norm_num [Vec3.dot])

@[simp] theorem Vec3.add_mk (a b c d e f : ℝ) :
    (⟨a, b, c⟩ : Vec3) + ⟨d, e, f⟩ = ⟨a + d, b + e, c + f⟩ := rfl

@[simp] theorem Vec3.sub_mk (a b c d e f : ℝ) :
    (⟨a, b, c⟩ : Vec3) - ⟨d, e, f⟩ = ⟨a - d, b - e, c - f⟩ := rfl

@[simp] theorem Vec3.smul_mk (s a b c : ℝ) :
    s • (⟨a, b, c⟩ : Vec3) = ⟨s * a, s * b, s * c⟩ := rfl

@[simp] theorem Vec3.dot_mk (a b c d e f : ℝ) :
    Vec3.dot ⟨a, b, c⟩ ⟨d, e, f⟩ = a * d + b * e + c * f := rfl

/-- The amended claim C3: when the nearest-hit scan selects a lens and the
hit point falls outside that lens's aperture, traceRay returns the background
color outright; the remaining candidates are not reconsidered. -/
theorem claimC3_aperture_background (objs : List SceneObj) (origin dir : Vec3)
    (i : ℕ) (c : Vec3) (a th rF rB : ℝ) (B C : Vec3)
    (hidx : (findClosest objs ⟨origin, dir⟩).hitObjIndex = some i)
    (hlens : (findClosest objs ⟨origin, dir⟩).hitIsLens = true)
    (hget : objs.get? i = some (SceneObj.lens c a th rF rB B C))
    (hap : ¬ (((origin + (findClosest objs ⟨origin, dir⟩).closestT • dir).x
            - c.x) *
          ((origin + (findClosest objs ⟨origin, dir⟩).closestT • dir).x
            - c.x) +
          ((origin + (findClosest objs ⟨origin, dir⟩).closestT • dir).y
            - c.y) *
          ((origin + (findClosest objs ⟨origin, dir⟩).closestT • dir).y
            - c.y) < a * a)) :
    traceRay objs origin dir = backgroundColor := by
  unfold traceRay shadeHit
  rw [hidx, hlens]
  dsimp only
  rw [hget]
  rw [if_pos rfl]
  show lensShade objs ⟨origin, dir⟩ (findClosest objs ⟨origin, dir⟩).closestT
    i c a th rF rB B C = backgroundColor
  unfold lensShade
  dsimp only
  rw [if_neg hap]

/-- Lens of the C3 scene: aperture radius 2, thickness 4, surface curvature
radii -5 and 5, which puts both surface spheres of radius 5 at centers
(0,0,53) and (0,0,47). -/
def lensC3 : SceneObj := SceneObj.lens ⟨0, 0, 50⟩ 2 4 (-5) 5 ⟨0, 0, 0⟩ ⟨2, 3, 4⟩

/-- Sphere of the C3 scene, on the ray's line behind the lens. -/
def sphereC3 : SceneObj := SceneObj.sphere ⟨3, 0, 100⟩ 5

theorem sqrt64 : Real.sqrt 64 = 8 := sqrt_of_sq 64 8 (by norm_num) (by norm_num)

theorem sqrt100 : Real.sqrt 100 = 10 :=
  sqrt_of_sq 100 10 (by norm_num) (by norm_num)

theorem sqrt25 : Real.sqrt 25 = 5 := sqrt_of_sq 25 5 (by norm_num) (by norm_num)

/-- Nearest-hit scan of the C3 scene: the ray at lateral offset 3 hits the
lens body (entry parameter 49, within both surface spheres) before the
sphere at parameter 95, so the lens at index 0 is selected. -/
theorem findClosest_C3 :
    findClosest [lensC3, sphereC3] ⟨⟨3, 0, 0⟩, ⟨0, 0, 1⟩⟩ =
      ⟨49, some 0, true⟩ := by
  unfold findClosest
  show List.foldl (scanStep ⟨⟨3, 0, 0⟩, ⟨0, 0, 1⟩⟩) ⟨100000, none, false⟩
    [(0, lensC3), (1, sphereC3)] = ⟨49, some 0, true⟩
  rw [List.foldl_cons, List.foldl_cons, List.foldl_nil]
  have step1 : scanStep ⟨⟨3, 0, 0⟩, ⟨0, 0, 1⟩⟩ ⟨100000, none, false⟩
      (0, lensC3) = ⟨49, some 0, true⟩ := by
    unfold scanStep lensC3 lensCenters intersectSphere
    norm_num [sqrt64, HitState.mk.injEq]
  have step2 : scanStep ⟨⟨3, 0, 0⟩, ⟨0, 0, 1⟩⟩ ⟨49, some 0, true⟩
      (1, sphereC3) = ⟨49, some 0, true⟩ := by
    unfold scanStep sphereC3 intersectSphere
    norm_num [sqrt100]
  rw [step1, step2]

/-- Counterexample to the claim C3: the nearest hit of the scene is the lens
body at lateral offset 3, outside the aperture radius 2; traceRay returns
the background color even though the sphere behind the lens is hit by the
very same ray (and is reported as the hit color when the lens is absent). -/
theorem claimC3_counterexample :
    traceRay [lensC3, sphereC3] ⟨3, 0, 0⟩ ⟨0, 0, 1⟩ = backgroundColor ∧
    traceRay [sphereC3] ⟨3, 0, 0⟩ ⟨0, 0, 1⟩ = hitColor ∧
    backgroundColor ≠ hitColor := by
  refine ⟨?_, ?_, ?_⟩
  · unfold traceRay
    rw [findClosest_C3]
    unfold shadeHit
    dsimp only
    show lensShade [lensC3, sphereC3] ⟨⟨3, 0, 0⟩, ⟨0, 0, 1⟩⟩ 49 0
      ⟨0, 0, 50⟩ 2 4 (-5) 5 ⟨0, 0, 0⟩ ⟨2, 3, 4⟩ = backgroundColor
    unfold lensShade
    dsimp only
    rw [if_neg (by norm_num)]
  · unfold traceRay
    have hfc : findClosest [sphereC3] ⟨⟨3, 0, 0⟩, ⟨0, 0, 1⟩⟩ =
        ⟨95, some 0, false⟩ := by
      unfold findClosest
      show List.foldl (scanStep ⟨⟨3, 0, 0⟩, ⟨0, 0, 1⟩⟩) ⟨100000, none, false⟩
        [(0, sphereC3)] = ⟨95, some 0, false⟩
      rw [List.foldl_cons, List.foldl_nil]
      unfold scanStep sphereC3 intersectSphere
      norm_num [sqrt100, HitState.mk.injEq]
    rw [hfc]
    rfl
  · intro h
    have hx := congrArg Vec3.x h
    norm_num [backgroundColor, hitColor] at hx

/-- Witness for the amended C3 at the concrete scene: the same out-of-aperture
lens hit yields the background color by the amended theorem. -/
theorem claimC3_witness :
    traceRay [lensC3, sphereC3] ⟨3, 0, 0⟩ ⟨0, 0, 1⟩ = backgroundColor :=
  claimC3_aperture_background [lensC3, sphereC3] ⟨3, 0, 0⟩ ⟨0, 0, 1⟩ 0
    ⟨0, 0, 50⟩ 2 4 (-5) 5 ⟨0, 0, 0⟩ ⟨2, 3, 4⟩
    (by rw [findClosest_C3]) (by rw [findClosest_C3]) rfl
    (by rw [findClosest_C3]; norm_num)

/-- Characterization of the second intersection pass over any indexed list:
it reports a hit exactly when the list contains a sphere entry, at an index
other than the traversed one, whose near intersection parameter is beyond the
epsilon.  Lens entries can never produce a second-pass hit. -/
theorem secondPassHit_iff_exists_sphere (ray : Ray) (hitIdx : ℕ)
    (l : List (ℕ × SceneObj)) :
    secondPassHit ray hitIdx l ↔
      ∃ k c r, (k, SceneObj.sphere c r) ∈ l ∧ k ≠ hitIdx ∧
        (intersectSphere ray c r).1 > 0.001 := by
  induction l with
  | nil => simp [secondPassHit]
  | cons p rest ih =>
      obtain ⟨k, o⟩ := p
      cases o with
      | sphere c r =>
          simp only [secondPassHit]
          rw [ih]
          constructor
          · rintro (⟨hk, ht⟩ | ⟨k1, c1, r1, hm, hk1, ht1⟩)
            · exact ⟨k, c, r, List.mem_cons_self _ _, hk, ht⟩
            · exact ⟨k1, c1, r1, List.mem_cons_of_mem _ hm, hk1, ht1⟩
          · rintro ⟨k1, c1, r1, hm, hk1, ht1⟩
            rcases List.mem_cons.1 hm with heq | hm1
            · left
              obtain ⟨h1, h2⟩ := Prod.mk.injEq .. ▸ heq
              obtain ⟨h3, h4⟩ := SceneObj.sphere.injEq .. ▸ h2
              subst h1
              subst h3
              subst h4
              exact ⟨hk1, ht1⟩
            · right
              exact ⟨k1, c1, r1, hm1, hk1, ht1⟩
      | lens c a th rF rB B C =>
          simp only [secondPassHit]
          rw [ih]
          constructor
          · rintro ⟨k1, c1, r1, hm, hk1, ht1⟩
            exact ⟨k1, c1, r1, List.mem_cons_of_mem _ hm, hk1, ht1⟩
          · rintro ⟨k1, c1, r1, hm, hk1, ht1⟩
            rcases List.mem_cons.1 hm with heq | hm1
            · simp at heq
            · exact ⟨k1, c1, r1, hm1, hk1, ht1⟩

/-- The amended claim C6: the second intersection pass of a lens traversal
reports a hit exactly via sphere objects at indices other than the traversed
lens; every lens object in the remaining scene is skipped by the second pass,
not only the lens just traversed. -/
theorem claimC6_second_pass_spheres_only (ray : Ray) (hitIdx : ℕ)
    (objs : List SceneObj) :
    secondPassHit ray hitIdx objs.enum ↔
      ∃ k c r, objs.get? k = some (SceneObj.sphere c r) ∧ k ≠ hitIdx ∧
        (intersectSphere ray c r).1 > 0.001 := by
  rw [secondPassHit_iff_exists_sphere]
  constructor
  · rintro ⟨k, c, r, hm, hk, ht⟩
    exact ⟨k, c, r, List.mem_enum_iff_get?.1 hm, hk, ht⟩
  · rintro ⟨k, c, r, hm, hk, ht⟩
    exact ⟨k, c, r, List.mem_enum_iff_get?.2 hm, hk, ht⟩

/-- First lens of the C6 scene: thickness 4, both curvature radii -5, so the
surface spheres of radius 5 sit at centers (0,0,53) and (0,0,57) and the body
spans z in [52,58] on the axis. -/
def lensC6a : SceneObj :=
  SceneObj.lens ⟨0, 0, 50⟩ 2 4 (-5) (-5) ⟨0, 0, 0⟩ ⟨2, 3, 4⟩

/-- Second lens of the C6 scene, behind the sensor at z = -20: missed by the
primary ray (both body parameters negative) but squarely intersected by the
backward-pointing exit ray of the first lens. -/
def lensC6b : SceneObj :=
  SceneObj.lens ⟨0, 0, -20⟩ 2 4 (-5) (-5) ⟨0, 0, 0⟩ ⟨2, 3, 4⟩

/-- Nearest-hit scan of the two-lens C6 scene: the on-axis ray enters the
first lens body at parameter 52; the second lens body lies at negative
parameters and is skipped. -/
theorem findClosest_C6 :
    findClosest [lensC6a, lensC6b] ⟨⟨0, 0, 0⟩, ⟨0, 0, 1⟩⟩ =
      ⟨52, some 0, true⟩ := by
  unfold findClosest
  show List.foldl (scanStep ⟨⟨0, 0, 0⟩, ⟨0, 0, 1⟩⟩) ⟨100000, none, false⟩
    [(0, lensC6a), (1, lensC6b)] = ⟨52, some 0, true⟩
  rw [List.foldl_cons, List.foldl_cons, List.foldl_nil]
  have step1 : scanStep ⟨⟨0, 0, 0⟩, ⟨0, 0, 1⟩⟩ ⟨100000, none, false⟩
      (0, lensC6a) = ⟨52, some 0, true⟩ := by
    unfold scanStep lensC6a lensCenters intersectSphere
    norm_num [sqrt100, HitState.mk.injEq]
  have step2 : scanStep ⟨⟨0, 0, 0⟩, ⟨0, 0, 1⟩⟩ ⟨52, some 0, true⟩
      (1, lensC6b) = ⟨52, some 0, true⟩ := by
    unfold scanStep lensC6b lensCenters intersectSphere
    norm_num [sqrt100]
  rw [step1, step2]

/-- Nearest-hit scan of the one-lens C6 scene. -/
theorem findClosest_C6single :
    findClosest [lensC6a] ⟨⟨0, 0, 0⟩, ⟨0, 0, 1⟩⟩ = ⟨52, some 0, true⟩ := by
  unfold findClosest
  show List.foldl (scanStep ⟨⟨0, 0, 0⟩, ⟨0, 0, 1⟩⟩) ⟨100000, none, false⟩
    [(0, lensC6a)] = ⟨52, some 0, true⟩
  rw [List.foldl_cons, List.foldl_nil]
  unfold scanStep lensC6a lensCenters intersectSphere
  norm_num [sqrt100, HitState.mk.injEq]

/-- Full lens-branch evaluation for the two-lens C6 scene: the on-axis ray
refracts through both surfaces of the first lens (with unit glass index the
entry is straight, the exit flips the direction because the outward exit
normal is parallel to the ray), the second pass skips the second lens because
it is not a sphere, and the result is the direction visualization of the
reversed exit direction. -/
theorem lensShade_C6_pair :
    lensShade [lensC6a, lensC6b] ⟨⟨0, 0, 0⟩, ⟨0, 0, 1⟩⟩ 52 0
      ⟨0, 0, 50⟩ 2 4 (-5) (-5) ⟨0, 0, 0⟩ ⟨2, 3, 4⟩ = ⟨0.5, 0.5, 0⟩ := by
  unfold lensShade finalColorStep
  norm_num [lensCenters, intersectSphere, sellmeier, customRefract,
    Vec3.normalize, secondPassHit, lensC6a, lensC6b, sqrt100, sqrt25,
    Real.sqrt_one, backgroundColor, hitColor, Vec3.mk.injEq]

/-- Full lens-branch evaluation for the one-lens C6 scene, identical to the
two-lens result. -/
theorem lensShade_C6_single :
    lensShade [lensC6a] ⟨⟨0, 0, 0⟩, ⟨0, 0, 1⟩⟩ 52 0
      ⟨0, 0, 50⟩ 2 4 (-5) (-5) ⟨0, 0, 0⟩ ⟨2, 3, 4⟩ = ⟨0.5, 0.5, 0⟩ := by
  unfold lensShade finalColorStep
  norm_num [lensCenters, intersectSphere, sellmeier, customRefract,
    Vec3.normalize, secondPassHit, lensC6a, sqrt100, sqrt25,
    Real.sqrt_one, backgroundColor, hitColor, Vec3.mk.injEq]

/-- Counterexample to the claim C6: in the two-lens scene the exit ray of the
traversed first lens intersects the second lens's body (its entry parameter
is below its exit parameter, which is beyond the epsilon), yet traceRay
returns the direction-visualization color, identical to the scene without
the second lens — the second pass never hits lenses, only spheres. -/
theorem claimC6_counterexample :
    traceRay [lensC6a, lensC6b] ⟨0, 0, 0⟩ ⟨0, 0, 1⟩ = ⟨0.5, 0.5, 0⟩ ∧
    traceRay [lensC6a] ⟨0, 0, 0⟩ ⟨0, 0, 1⟩ =
      traceRay [lensC6a, lensC6b] ⟨0, 0, 0⟩ ⟨0, 0, 1⟩ ∧
    (max (intersectSphere ⟨⟨0, 0, 57.99⟩, ⟨0, 0, -1⟩⟩
          (lensCenters ⟨0, 0, -20⟩ 4 (-5) (-5)).1 |(-5 : ℝ)|).1
        (intersectSphere ⟨⟨0, 0, 57.99⟩, ⟨0, 0, -1⟩⟩
          (lensCenters ⟨0, 0, -20⟩ 4 (-5) (-5)).2 |(-5 : ℝ)|).1 <
      min (intersectSphere ⟨⟨0, 0, 57.99⟩, ⟨0, 0, -1⟩⟩
          (lensCenters ⟨0, 0, -20⟩ 4 (-5) (-5)).1 |(-5 : ℝ)|).2
        (intersectSphere ⟨⟨0, 0, 57.99⟩, ⟨0, 0, -1⟩⟩
          (lensCenters ⟨0, 0, -20⟩ 4 (-5) (-5)).2 |(-5 : ℝ)|).2 ∧
      (0.001 : ℝ) <
      min (intersectSphere ⟨⟨0, 0, 57.99⟩, ⟨0, 0, -1⟩⟩
          (lensCenters ⟨0, 0, -20⟩ 4 (-5) (-5)).1 |(-5 : ℝ)|).2
        (intersectSphere ⟨⟨0, 0, 57.99⟩, ⟨0, 0, -1⟩⟩
          (lensCenters ⟨0, 0, -20⟩ 4 (-5) (-5)).2 |(-5 : ℝ)|).2) ∧
    (⟨0.5, 0.5, 0⟩ : Vec3) ≠ hitColor := by
  have hpair : traceRay [lensC6a, lensC6b] ⟨0, 0, 0⟩ ⟨0, 0, 1⟩ =
      ⟨0.5, 0.5, 0⟩ := by
    unfold traceRay
    rw [findClosest_C6]
    unfold shadeHit
    dsimp only
    show lensShade [lensC6a, lensC6b] ⟨⟨0, 0, 0⟩, ⟨0, 0, 1⟩⟩ 52 0
      ⟨0, 0, 50⟩ 2 4 (-5) (-5) ⟨0, 0, 0⟩ ⟨2, 3, 4⟩ = ⟨0.5, 0.5, 0⟩
    exact lensShade_C6_pair
  have hsingle : traceRay [lensC6a] ⟨0, 0, 0⟩ ⟨0, 0, 1⟩ = ⟨0.5, 0.5, 0⟩ := by
    unfold traceRay
    rw [findClosest_C6single]
    unfold shadeHit
    dsimp only
    show lensShade [lensC6a] ⟨⟨0, 0, 0⟩, ⟨0, 0, 1⟩⟩ 52 0
      ⟨0, 0, 50⟩ 2 4 (-5) (-5) ⟨0, 0, 0⟩ ⟨2, 3, 4⟩ = ⟨0.5, 0.5, 0⟩
    exact lensShade_C6_single
  refine ⟨hpair, by rw [hpair, hsingle], ?_, ?_⟩
  · unfold lensCenters intersectSphere
    norm_num [sqrt100]
  · intro h
    have hx := congrArg Vec3.x h
    norm_num [hitColor] at hx
